import Mathlib

/-!
Verification development for the `FinancialSituationMemory` retrieval engine
(`tradingagents/agents/utils/memory.py`): hybrid BM25 + vector search with
FIFO eviction, pinned-entry prioritization and time-tiered score boosting.

The Python class is embedded shallowly:
* pure helpers (`_tokenize`, `_extract_date`, index rebuild, eviction,
  score fusion, boosting, top-k selection, normalization) are translated
  directly into executable Lean functions over `ℚ`;
* the two external numeric oracles — the BM25 scorer of the `rank_bm25`
  library and the Ollama embedding backend together with the numpy cosine
  pipeline — are parameters (`scoreAll`, `Backend`, `cos`).  The BM25
  contract used in theorems is only positional alignment (one score per
  indexed document); the spec itself fixes no range for lexical scores.
* Python code that can raise (`datetime.strptime` inside `_extract_date`)
  returns `Except Unit`; the error propagates through `get_memories`
  exactly where a `ValueError` would propagate in Python.
-/

deriving instance DecidableEq for Except

/-- `_tokenize` word characters: Python regex `\w` (ASCII fragment). -/
def isWordChar (c : Char) : Bool := c.isAlphanum || c = '_'

/-- Splits a lowercased character stream into maximal word-character runs,
mirroring `re.findall` of word runs in `_tokenize`. -/
def tokenizeAux : List Char → List Char → List (List Char)
  | [], [] => []
  | [], cur => [cur.reverse]
  | c :: rest, cur =>
    if isWordChar c then tokenizeAux rest (c :: cur)
    else if cur.isEmpty then tokenizeAux rest []
    else cur.reverse :: tokenizeAux rest []

/-- `FinancialSituationMemory._tokenize`: lowercase, then maximal runs of
word characters. -/
def tokenize (s : String) : List String :=
  (tokenizeAux (s.toList.map Char.toLower) []).map (fun l => String.mk l)

/-- Proleptic Gregorian leap-year rule, as in Python's `datetime`. -/
def isLeapYear (y : Nat) : Bool := y % 4 = 0 && (y % 100 != 0 || y % 400 = 0)

/-- Days in a month, as validated by `datetime.date`. -/
def daysInMonth (y m : Nat) : Nat :=
  if m = 2 then (if isLeapYear y then 29 else 28)
  else if m = 4 || m = 6 || m = 9 || m = 11 then 30
  else if 1 ≤ m && m ≤ 12 then 31
  else 0

/-- The `%Y-%m-%d` strings accepted by `datetime.strptime`: year 1..9999,
month 1..12, day within the month. Everything else raises `ValueError`. -/
def validYMD (y m d : Nat) : Bool :=
  1 ≤ y && y ≤ 9999 && 1 ≤ m && m ≤ 12 && 1 ≤ d && d ≤ daysInMonth y m

/-- A calendar date as produced by `datetime.date`. -/
structure SDate where
  year : Nat
  month : Nat
  day : Nat
deriving DecidableEq, Repr

/-- Days in the months strictly before month `m` of year `y`. -/
def daysBeforeMonth (y m : Nat) : Nat :=
  (List.range (m - 1)).foldl (fun a i => a + daysInMonth y (i + 1)) 0

/-- `datetime.date.toordinal`: day count of the proleptic Gregorian
calendar, with 0001-01-01 mapped to 1. -/
def toRataDie (dt : SDate) : Nat :=
  365 * (dt.year - 1) + (dt.year - 1) / 4 + (dt.year - 1) / 400
    - (dt.year - 1) / 100 + daysBeforeMonth dt.year dt.month + dt.day

/-- Python date subtraction `(a - b).days`. -/
def dateSub (a b : SDate) : Int := (toRataDie a : Int) - (toRataDie b : Int)

/-- Numeric value of an ASCII digit character. -/
def digitVal (c : Char) : Nat := c.toNat - 48

/-- Tries to match the regex `\((\d{4}-\d{2}-\d{2})\)` at the head of the
character list, returning the three captured numbers. -/
def matchDateAt : List Char → Option (Nat × Nat × Nat)
  | '(' :: a :: b :: c :: d :: '-' :: e :: f :: '-' :: g :: h :: ')' :: _ =>
    if a.isDigit && b.isDigit && c.isDigit && d.isDigit && e.isDigit &&
        f.isDigit && g.isDigit && h.isDigit then
      some (1000 * digitVal a + 100 * digitVal b + 10 * digitVal c + digitVal d,
            (10 * digitVal e + digitVal f, 10 * digitVal g + digitVal h))
    else none
  | _ => none

/-- Leftmost match of the parenthesized date pattern (`re.search`). -/
def scanDate : List Char → Option (Nat × Nat × Nat)
  | [] => none
  | c :: rest =>
    match matchDateAt (c :: rest) with
    | some r => some r
    | none => scanDate rest

/-- `FinancialSituationMemory._extract_date`: searches the first 500
characters for a parenthesized `YYYY-MM-DD` token and feeds the capture to
`datetime.strptime`.  A capture that is not a valid calendar date makes
`strptime` raise `ValueError`, modelled as `Except.error ()`. -/
def extractDate (text : String) : Except Unit (Option SDate) :=
  match scanDate (text.toList.take 500) with
  | none => Except.ok none
  | some (y, m, d) =>
    if validYMD y m d then Except.ok (some ⟨y, m, d⟩) else Except.error ()

/-- One entry of the list returned by `get_memories`. -/
structure MatchRes where
  matched_situation : String
  recommendation : String
  similarity_score : ℚ
deriving DecidableEq, Repr

/-- The mutable state of a `FinancialSituationMemory` instance.  `bm25`
holds the tokenized corpus the `BM25Okapi` object was built from (`none`
models `self.bm25 = None`); `doc_embeddings` is the cached corpus
embedding matrix. -/
structure FinancialSituationMemory where
  name : String
  max_documents : Int
  documents : List String
  recommendations : List String
  pinned_documents : List String
  pinned_recommendations : List String
  bm25 : Option (List (List String))
  doc_embeddings : Option (List (List ℚ))
  embeddings_dirty : Bool
  hybrid_enabled : Bool
deriving DecidableEq, Repr

/-- The Ollama embedding endpoint, abstracted: `_ollama_embed` returns a
matrix (one row per input text) or `none` on any network/payload failure. -/
structure Backend where
  embedBatch : List String → Option (List (List ℚ))

namespace FinancialSituationMemory

/-- `__init__`: no argument validation happens; `hybrid_search` defaults
to `True` when `config` is `None` or lacks the key. -/
def mk_memory (name : String) (config : Option (List (String × Bool)))
    (max_documents : Int) : FinancialSituationMemory :=
  { name := name
    max_documents := max_documents
    documents := []
    recommendations := []
    pinned_documents := []
    pinned_recommendations := []
    bm25 := none
    doc_embeddings := none
    embeddings_dirty := true
    hybrid_enabled := (((config.getD []).lookup "hybrid_search").getD true) }

/-- `_rebuild_index`: rebuild BM25 over `pinned + regular` and mark the
embedding cache dirty. -/
def rebuild_index (st : FinancialSituationMemory) : FinancialSituationMemory :=
  let allDocs := st.pinned_documents ++ st.documents
  { st with
    bm25 := if allDocs.isEmpty then none else some (allDocs.map tokenize)
    embeddings_dirty := true }

/-- `add_situations`: append all pairs, then FIFO-evict the oldest regular
entries once the cap is exceeded, then rebuild the index. -/
def add_situations (st : FinancialSituationMemory)
    (pairs : List (String × String)) : FinancialSituationMemory :=
  let docs := st.documents ++ pairs.map Prod.fst
  let recs := st.recommendations ++ pairs.map Prod.snd
  let evict := st.max_documents > 0 && (docs.length : Int) > st.max_documents
  let excess := docs.length - st.max_documents.toNat
  rebuild_index
    { st with
      documents := if evict then docs.drop excess else docs
      recommendations := if evict then recs.drop excess else recs }

/-- `clear`: wipe regular entries (optionally pinned too), drop both
indices, and rebuild BM25 from pinned entries when any survive. -/
def clear (st : FinancialSituationMemory) (includePinned : Bool) :
    FinancialSituationMemory :=
  let st1 :=
    { st with
      documents := []
      recommendations := []
      pinned_documents := if includePinned then [] else st.pinned_documents
      pinned_recommendations :=
        if includePinned then [] else st.pinned_recommendations
      bm25 := none
      doc_embeddings := none
      embeddings_dirty := true }
  if !includePinned && !st.pinned_documents.isEmpty then rebuild_index st1
  else st1

/-- The administrative playbook-curation path: the caller assigns
`pinned_documents` / `pinned_recommendations` directly (as the module's
own demo code does).  Plain attribute assignment — nothing is rebuilt. -/
def set_pinned (st : FinancialSituationMemory) (docs recs : List String) :
    FinancialSituationMemory :=
  { st with pinned_documents := docs, pinned_recommendations := recs }

/-- `_ensure_embeddings`: recompute the corpus embedding matrix only when
dirty and hybrid mode is on.  The flag is set to `False` on every attempt,
including a failed one (`_ollama_embed` returning `None`). -/
def ensure_embeddings (B : Backend) (st : FinancialSituationMemory) :
    FinancialSituationMemory :=
  if !st.embeddings_dirty || !st.hybrid_enabled then st
  else
    let allDocs := st.pinned_documents ++ st.documents
    if allDocs.isEmpty then
      { st with doc_embeddings := none, embeddings_dirty := false }
    else
      { st with doc_embeddings := B.embedBatch allDocs,
                embeddings_dirty := false }

end FinancialSituationMemory

/-- Python `max` over a nonempty list (junk value 0 on `[]`, a case the
source never reaches). -/
def maxQ : List ℚ → ℚ
  | [] => 0
  | x :: xs => xs.foldl max x

/-- Python `min` over a nonempty list. -/
def minQ : List ℚ → ℚ
  | [] => 0
  | x :: xs => xs.foldl min x

/-- `_HYBRID_ALPHA`: the fixed BM25 weight of the hybrid fusion. -/
def hybridAlpha : ℚ := 6 / 10

/-- The fusion arithmetic of `get_memories`: divide BM25 scores by their
maximum (`or 1.0` turns an exact 0 into 1), min-max-normalize the cosine
scores (`or 1.0` guards a zero range), then take the weighted sum. -/
def fuse (lex vec : List ℚ) : List ℚ :=
  let bmax := maxQ lex
  let bmax' := if bmax = 0 then 1 else bmax
  let lexNorm := lex.map (fun s => s / bmax')
  let vmin := minQ vec
  let vrange := maxQ vec - vmin
  let vrange' := if vrange = 0 then 1 else vrange
  let vecNorm := vec.map (fun v => (v - vmin) / vrange')
  List.zipWith (fun b v => hybridAlpha * b + (1 - hybridAlpha) * v) lexNorm vecNorm

/-- The body of the time-weighting loop of `get_memories` for one index:
pinned rows are quadrupled; regular rows are boosted by the age bucket of
their embedded date; an invalid embedded date raises (`Except.error`). -/
def boostOne (rd : SDate) (nPinned : Nat) (allDocs : List String) (i : Nat)
    (s : ℚ) : Except Unit ℚ :=
  if i < nPinned then Except.ok (s * 4)
  else
    match extractDate (allDocs.getD i "") with
    | Except.error e => Except.error e
    | Except.ok none => Except.ok s
    | Except.ok (some d) =>
      let age := dateSub rd d
      if age ≤ 7 then Except.ok (s * 3)
      else if age ≤ 30 then Except.ok (s * 2)
      else Except.ok s

/-- The time-weighting loop, from row index `i` on. -/
def boostAux (rd : SDate) (nPinned : Nat) (allDocs : List String) :
    Nat → List ℚ → Except Unit (List ℚ)
  | _, [] => Except.ok []
  | i, s :: rest =>
    match boostOne rd nPinned allDocs i s with
    | Except.error e => Except.error e
    | Except.ok s' =>
      match boostAux rd nPinned allDocs (i + 1) rest with
      | Except.error e => Except.error e
      | Except.ok rest' => Except.ok (s' :: rest')

/-- Time-based weighting of `get_memories`: skipped entirely when no
`reference_date` is supplied. -/
def boostScores (rd? : Option SDate) (nPinned : Nat) (allDocs : List String)
    (scores : List ℚ) : Except Unit (List ℚ) :=
  match rd? with
  | none => Except.ok scores
  | some rd => boostAux rd nPinned allDocs 0 scores

/-- Python list slicing `l[:n]` for an arbitrary (possibly negative) `n`. -/
def pySlice (n : Int) (l : List α) : List α :=
  if 0 ≤ n then l.take n.toNat else l.take (l.length - (-n).toNat)

/-- The comparison key of the final ranking: row `i` precedes row `j`
when its final score is at least as large. -/
def scoreRel (scores : List ℚ) : Nat → Nat → Prop :=
  fun i j => scores.getD j 0 ≤ scores.getD i 0

instance (scores : List ℚ) : DecidableRel (scoreRel scores) :=
  fun i j => inferInstanceAs (Decidable (scores.getD j 0 ≤ scores.getD i 0))

instance (scores : List ℚ) : IsTotal Nat (scoreRel scores) :=
  ⟨fun i j => le_total (scores.getD j 0) (scores.getD i 0)⟩

instance (scores : List ℚ) : IsTrans Nat (scoreRel scores) :=
  ⟨fun _ _ _ h1 h2 => le_trans h2 h1⟩

/-- The descending stable sort of row indices used by `get_memories`
(`sorted(range(len(scores)), key=..., reverse=True)`). -/
def topIndices (scores : List ℚ) (n : Int) : List Nat :=
  pySlice n (List.insertionSort (scoreRel scores) (List.range scores.length))

/-- The tail of `get_memories`: select the top `n` rows by final score and
normalize each returned score by the global maximum — except that when the
maximum is not positive the divisor silently becomes 1. -/
def buildResults (allDocs allRecs : List String) (scores : List ℚ) (n : Int) :
    List MatchRes :=
  let m := maxQ scores
  let maxScore := if m > 0 then m else 1
  (topIndices scores n).map fun i =>
    { matched_situation := allDocs.getD i ""
      recommendation := allRecs.getD i ""
      similarity_score :=
        if maxScore > 0 then scores.getD i 0 / maxScore else 0 }

namespace FinancialSituationMemory

/-- The score vector of one query: BM25 scores, fused with cosine scores
only when hybrid mode is on and both the cached matrix and a fresh query
embedding are available.  `st'` is the state after `_ensure_embeddings`;
`cos` abstracts the numpy cosine-similarity block. -/
def compute_scores (B : Backend) (cos : List (List ℚ) → List ℚ → List ℚ)
    (scoreAll : List (List String) → List String → List ℚ)
    (st st' : FinancialSituationMemory) (idx : List (List String))
    (query : String) : List ℚ :=
  let bm25Scores := scoreAll idx (tokenize query)
  if st.hybrid_enabled then
    match st'.doc_embeddings with
    | some dEmb =>
      match B.embedBatch [query] with
      | some qemb => fuse bm25Scores (cos dEmb (qemb.headD []))
      | none => bm25Scores
    | none => bm25Scores
  else bm25Scores

/-- `get_memories`.  Returns the result list (or the propagated
`ValueError` of `_extract_date`) together with the state as mutated by
`_ensure_embeddings`. -/
def get_memories (B : Backend) (cos : List (List ℚ) → List ℚ → List ℚ)
    (scoreAll : List (List String) → List String → List ℚ)
    (st : FinancialSituationMemory) (query : String) (n : Int)
    (rd? : Option SDate) :
    Except Unit (List MatchRes) × FinancialSituationMemory :=
  let allDocs := st.pinned_documents ++ st.documents
  let allRecs := st.pinned_recommendations ++ st.recommendations
  match st.bm25 with
  | none => (Except.ok [], st)
  | some idx =>
    if allDocs.isEmpty then (Except.ok [], st)
    else
      let st' := if st.hybrid_enabled then ensure_embeddings B st else st
      let scores := compute_scores B cos scoreAll st st' idx query
      match boostScores rd? st.pinned_documents.length allDocs scores with
      | Except.error e => (Except.error e, st')
      | Except.ok boosted =>
        (Except.ok (buildResults allDocs allRecs boosted n), st')

end FinancialSituationMemory

/-- The index `get_memories` ought to query: the BM25 tokenization of the
current `pinned + regular` corpus (and no index at all when the corpus is
empty).  This is what `_rebuild_index` produces. -/
def expectedIndex (st : FinancialSituationMemory) : Option (List (List String)) :=
  let allDocs := st.pinned_documents ++ st.documents
  if allDocs.isEmpty then none else some (allDocs.map tokenize)

/-- The lexical index is positionally aligned with the entry lists being
scored. -/
def indexConsistent (st : FinancialSituationMemory) : Prop :=
  st.bm25 = expectedIndex st

instance (st : FinancialSituationMemory) : Decidable (indexConsistent st) :=
  inferInstanceAs (Decidable (_ = _))

/-! ### Helper lemmas -/

theorem foldl_max_init (x : ℚ) (xs : List ℚ) : x ≤ xs.foldl max x := by
  induction xs generalizing x with
  | nil => exact le_refl x
  | cons y ys ih => exact le_trans (le_max_left x y) (ih (max x y))

theorem foldl_max_le (xs : List ℚ) (x : ℚ) :
    ∀ a ∈ xs, a ≤ xs.foldl max x := by
  induction xs generalizing x with
  | nil => intro a ha; cases ha
  | cons y ys ih =>
    intro a ha
    rcases List.mem_cons.mp ha with h | h
    · subst h
      exact le_trans (le_max_right x a) (foldl_max_init _ ys)
    · exact ih (max x y) a h

theorem foldl_max_mem (xs : List ℚ) (x : ℚ) : xs.foldl max x ∈ x :: xs := by
  induction xs generalizing x with
  | nil => exact List.mem_singleton.mpr rfl
  | cons y ys ih =>
    have h := ih (max x y)
    rcases List.mem_cons.mp h with h1 | h1
    · rw [List.foldl_cons, h1]
      rcases max_choice x y with h2 | h2 <;> rw [h2]
      · exact List.mem_cons_self _ _
      · exact List.mem_cons_of_mem _ (List.mem_cons_self _ _)
    · exact List.mem_cons_of_mem _ (List.mem_cons_of_mem _ h1)

theorem le_maxQ (l : List ℚ) : ∀ a ∈ l, a ≤ maxQ l := by
  cases l with
  | nil => intro a ha; cases ha
  | cons x xs =>
    intro a ha
    rcases List.mem_cons.mp ha with h | h
    · subst h; exact foldl_max_init a xs
    · exact foldl_max_le xs x a h

theorem maxQ_mem (l : List ℚ) (h : l ≠ []) : maxQ l ∈ l := by
  cases l with
  | nil => exact absurd rfl h
  | cons x xs => exact foldl_max_mem xs x

theorem getD_lt_length_mem (l : List ℚ) (i : Nat) (h : i < l.length) :
    l.getD i 0 ∈ l := by
  rw [List.getD_eq_getElem l 0 h]
  exact List.getElem_mem h

theorem maxQ_attained (l : List ℚ) (h : l ≠ []) :
    ∃ i, i < l.length ∧ l.getD i 0 = maxQ l := by
  obtain ⟨i, hi, heq⟩ := List.mem_iff_getElem.mp (maxQ_mem l h)
  exact ⟨i, hi, by rw [List.getD_eq_getElem l 0 hi, heq]⟩

theorem maxQ_replicate_zero (L : Nat) : maxQ (List.replicate L (0 : ℚ)) = 0 := by
  cases L with
  | zero => rfl
  | succ k =>
    rw [List.replicate_succ]
    show (List.replicate k (0 : ℚ)).foldl max 0 = 0
    induction k with
    | zero => rfl
    | succ m ih =>
      rw [List.replicate_succ, List.foldl_cons, max_self]
      exact ih

theorem getD_replicate_zero (L j : Nat) :
    (List.replicate L (0 : ℚ)).getD j 0 = 0 := by
  induction L generalizing j with
  | zero => cases j <;> rfl
  | succ k ih =>
    cases j with
    | zero => rfl
    | succ m => rw [List.replicate_succ]; exact ih m

theorem pySlice_sublist (n : Int) (l : List α) : List.Sublist (pySlice n l) l := by
  unfold pySlice
  split <;> exact List.take_sublist _ _

theorem pySlice_length_nonneg (n : Int) (l : List α) (h : 0 ≤ n) :
    (pySlice n l).length = min n.toNat l.length := by
  unfold pySlice
  rw [if_pos h, List.length_take]

theorem pySlice_length_neg (n : Int) (l : List α) (h : n < 0) :
    (pySlice n l).length = l.length - (-n).toNat := by
  unfold pySlice
  rw [if_neg (not_le.mpr h), List.length_take]
  exact min_eq_left (Nat.sub_le _ _)

theorem topIndices_sorted (scores : List ℚ) (n : Int) :
    (topIndices scores n).Sorted (scoreRel scores) :=
  List.Pairwise.sublist (pySlice_sublist _ _)
    (List.sorted_insertionSort (scoreRel scores) (List.range scores.length))

theorem topIndices_mem (scores : List ℚ) (n : Int) (i : Nat)
    (h : i ∈ topIndices scores n) : i < scores.length := by
  have h1 : i ∈ List.insertionSort (scoreRel scores) (List.range scores.length) :=
    (pySlice_sublist _ _).mem h
  have h2 : i ∈ List.range scores.length := (List.mem_insertionSort _).mp h1
  exact List.mem_range.mp h2

theorem topIndices_length_nonneg (scores : List ℚ) (n : Int) (h : 0 ≤ n) :
    (topIndices scores n).length = min n.toNat scores.length := by
  unfold topIndices
  rw [pySlice_length_nonneg _ _ h, List.length_insertionSort, List.length_range]

theorem maxScore_pos (m : ℚ) : 0 < (if m > 0 then m else 1) := by
  split
  · assumption
  · exact one_pos

theorem boostAux_ok (rd : SDate) (np : Nat) (docs : List String) :
    ∀ (l : List ℚ) (i : Nat) (out : List ℚ),
      boostAux rd np docs i l = Except.ok out →
      out.length = l.length ∧
        ∀ j, j < l.length →
          boostOne rd np docs (i + j) (l.getD j 0) = Except.ok (out.getD j 0) := by
  intro l
  induction l with
  | nil =>
    intro i out h
    cases h
    exact ⟨rfl, fun j hj => absurd hj (Nat.not_lt_zero j)⟩
  | cons s rest ih =>
    intro i out h
    unfold boostAux at h
    cases h1 : boostOne rd np docs i s with
    | error e => rw [h1] at h; cases h
    | ok s' =>
      rw [h1] at h
      cases h2 : boostAux rd np docs (i + 1) rest with
      | error e => rw [h2] at h; cases h
      | ok rest' =>
        rw [h2] at h
        cases h
        obtain ⟨hlen, hget⟩ := ih (i + 1) rest' h2
        refine ⟨by simp [hlen], fun j hj => ?_⟩
        cases j with
        | zero => rw [Nat.add_zero]; exact h1
        | succ k =>
          have hk : k < rest.length := Nat.lt_of_succ_lt_succ hj
          have hx := hget k hk
          rw [show i + (k + 1) = i + 1 + k by omega]
          exact hx

theorem boostScores_ok_length (rd? : Option SDate) (np : Nat)
    (docs : List String) (scores out : List ℚ)
    (h : boostScores rd? np docs scores = Except.ok out) :
    out.length = scores.length := by
  cases rd? with
  | none => cases h; rfl
  | some rd => exact (boostAux_ok rd np docs scores 0 out h).1

theorem boostScores_none (np : Nat) (docs : List String) (scores : List ℚ) :
    boostScores none np docs scores = Except.ok scores := rfl

theorem fuse_length (lex vec : List ℚ) :
    (fuse lex vec).length = min lex.length vec.length := by
  simp [fuse]

theorem insertionSort_of_all_rel {r : α → α → Prop} [DecidableRel r]
    (l : List α) (h : ∀ a ∈ l, ∀ b ∈ l, r a b) :
    List.insertionSort r l = l := by
  induction l with
  | nil => rfl
  | cons x xs ih =>
    have hxs : List.insertionSort r xs = xs :=
      ih fun a ha b hb =>
        h a (List.mem_cons_of_mem _ ha) b (List.mem_cons_of_mem _ hb)
    rw [List.insertionSort, hxs]
    cases xs with
    | nil => rfl
    | cons y ys =>
      rw [List.orderedInsert,
        if_pos (h x (List.mem_cons_self _ _) y
          (List.mem_cons_of_mem _ (List.mem_cons_self _ _)))]

theorem buildResults_length (allDocs allRecs : List String) (scores : List ℚ)
    (n : Int) (h : 0 ≤ n) :
    (buildResults allDocs allRecs scores n).length = min n.toNat scores.length := by
  unfold buildResults
  rw [List.length_map, topIndices_length_nonneg _ _ h]

theorem buildResults_score_mem (allDocs allRecs : List String)
    (scores : List ℚ) (n : Int) (r : MatchRes)
    (h : r ∈ buildResults allDocs allRecs scores n) :
    ∃ i, i < scores.length ∧
      r.similarity_score =
        scores.getD i 0 / (if maxQ scores > 0 then maxQ scores else 1) := by
  unfold buildResults at h
  obtain ⟨i, hi, heq⟩ := List.mem_map.mp h
  refine ⟨i, topIndices_mem _ _ _ hi, ?_⟩
  rw [← heq]
  simp only [if_pos (maxScore_pos (maxQ scores))]

theorem buildResults_sorted (allDocs allRecs : List String) (scores : List ℚ)
    (n : Int) :
    ((buildResults allDocs allRecs scores n).map
        (fun r => r.similarity_score)).Sorted (fun a b => b ≤ a) := by
  unfold buildResults
  rw [List.map_map]
  have hs := topIndices_sorted scores n
  rw [List.Sorted, List.pairwise_map]
  refine hs.imp ?_
  intro i j hij
  simp only [Function.comp, if_pos (maxScore_pos (maxQ scores))]
  exact div_le_div_of_nonneg_right hij (maxScore_pos (maxQ scores)).le

theorem buildResults_head_eq_one (allDocs allRecs : List String)
    (scores : List ℚ) (n : Int) (hne : scores ≠ []) (hn : 1 ≤ n)
    (hmax : 0 < maxQ scores) :
    ((buildResults allDocs allRecs scores n).map
        (fun r => r.similarity_score)).head? = some 1 := by
  have hlen : 0 < scores.length := List.length_pos.mpr hne
  have hslen :
      (List.insertionSort (scoreRel scores) (List.range scores.length)).length =
        scores.length := by
    rw [List.length_insertionSort, List.length_range]
  cases hsort :
      List.insertionSort (scoreRel scores) (List.range scores.length) with
  | nil => rw [hsort] at hslen; simp at hslen; omega
  | cons h t =>
    have hperm := List.perm_insertionSort (scoreRel scores)
      (List.range scores.length)
    have hsorted := List.sorted_insertionSort (scoreRel scores)
      (List.range scores.length)
    rw [hsort] at hperm hsorted
    -- the head index is in range
    have hmem : h < scores.length := by
      have : h ∈ List.range scores.length :=
        hperm.mem_iff.mp (List.mem_cons_self _ _)
      exact List.mem_range.mp this
    -- the head dominates every other sorted index
    have hdom : ∀ j, j < scores.length → scores.getD j 0 ≤ scores.getD h 0 := by
      intro j hj
      have hjmem : j ∈ h :: t := hperm.mem_iff.mpr (List.mem_range.mpr hj)
      rcases List.mem_cons.mp hjmem with hjh | hjt
      · subst hjh; exact le_refl _
      · exact List.rel_of_sorted_cons hsorted j hjt
    -- hence the head attains the global maximum
    have hhead_max : scores.getD h 0 = maxQ scores := by
      obtain ⟨i0, hi0, hi0eq⟩ := maxQ_attained scores hne
      have h1 : maxQ scores ≤ scores.getD h 0 := hi0eq ▸ hdom i0 hi0
      have h2 : scores.getD h 0 ≤ maxQ scores :=
        le_maxQ scores _ (getD_lt_length_mem scores h hmem)
      exact le_antisymm h2 h1
    -- the slice keeps the head
    have htop : ∃ rest, topIndices scores n = h :: rest := by
      unfold topIndices pySlice
      rw [if_pos (le_trans (by norm_num) hn), hsort]
      have : ∃ k, n.toNat = k + 1 := by
        refine ⟨n.toNat - 1, ?_⟩
        have : 1 ≤ n.toNat := by omega
        omega
      obtain ⟨k, hk⟩ := this
      rw [hk, List.take_succ_cons]
      exact ⟨_, rfl⟩
    obtain ⟨rest, hrest⟩ := htop
    unfold buildResults
    rw [hrest]
    simp only [List.map_cons, List.head?_cons, Option.some.injEq]
    rw [if_pos (maxScore_pos (maxQ scores)), if_pos hmax, hhead_max]
    exact div_self (ne_of_gt hmax)

theorem buildResults_zero_scores (allDocs allRecs : List String) (L : Nat)
    (n : Int) (hn : 0 ≤ n) :
    buildResults allDocs allRecs (List.replicate L (0 : ℚ)) n =
      (List.range (min n.toNat L)).map
        (fun i =>
          { matched_situation := allDocs.getD i ""
            recommendation := allRecs.getD i ""
            similarity_score := 0 }) := by
  have hsort :
      List.insertionSort (scoreRel (List.replicate L (0 : ℚ)))
          (List.range (List.replicate L (0 : ℚ)).length) =
        List.range L := by
    rw [List.length_replicate]
    refine insertionSort_of_all_rel _ fun a _ b _ => ?_
    unfold scoreRel
    rw [getD_replicate_zero, getD_replicate_zero]
  unfold buildResults topIndices
  rw [hsort]
  unfold pySlice
  rw [if_pos hn, List.take_range]
  simp only [maxQ_replicate_zero, getD_replicate_zero]
  norm_num

namespace FinancialSituationMemory

theorem compute_scores_length (B : Backend)
    (cos : List (List ℚ) → List ℚ → List ℚ)
    (scoreAll : List (List String) → List String → List ℚ)
    (st st' : FinancialSituationMemory) (idx : List (List String))
    (query : String)
    (hsc : (scoreAll idx (tokenize query)).length = idx.length)
    (hde : ∀ M, st'.doc_embeddings = some M → M.length = idx.length)
    (hcos : ∀ de qv, (cos de qv).length = de.length) :
    (compute_scores B cos scoreAll st st' idx query).length = idx.length := by
  unfold compute_scores
  split
  · cases hM : st'.doc_embeddings with
    | none => exact hsc
    | some dEmb =>
      cases hq : B.embedBatch [query] with
      | none => exact hsc
      | some qemb =>
        rw [fuse_length, hsc, hcos, hde dEmb hM, min_self]
  · exact hsc

theorem get_memories_no_index (B : Backend)
    (cos : List (List ℚ) → List ℚ → List ℚ)
    (scoreAll : List (List String) → List String → List ℚ)
    (st : FinancialSituationMemory) (query : String) (n : Int)
    (rd? : Option SDate) (h : st.bm25 = none) :
    get_memories B cos scoreAll st query n rd? = (Except.ok [], st) := by
  unfold get_memories
  rw [h]

theorem get_memories_empty_corpus (B : Backend)
    (cos : List (List ℚ) → List ℚ → List ℚ)
    (scoreAll : List (List String) → List String → List ℚ)
    (st : FinancialSituationMemory) (query : String) (n : Int)
    (rd? : Option SDate) (idx : List (List String)) (h : st.bm25 = some idx)
    (hemp : (st.pinned_documents ++ st.documents).isEmpty) :
    get_memories B cos scoreAll st query n rd? = (Except.ok [], st) := by
  unfold get_memories
  rw [h]
  simp only [hemp, if_pos]

end FinancialSituationMemory

namespace FinancialSituationMemory

theorem get_memories_main (B : Backend)
    (cos : List (List ℚ) → List ℚ → List ℚ)
    (scoreAll : List (List String) → List String → List ℚ)
    (st : FinancialSituationMemory) (query : String) (n : Int)
    (rd? : Option SDate) (idx : List (List String)) (h : st.bm25 = some idx)
    (hemp : (st.pinned_documents ++ st.documents).isEmpty = false) :
    get_memories B cos scoreAll st query n rd? =
      (let st' := if st.hybrid_enabled then ensure_embeddings B st else st
       match
         boostScores rd? st.pinned_documents.length
           (st.pinned_documents ++ st.documents)
           (compute_scores B cos scoreAll st st' idx query) with
       | Except.error e => (Except.error e, st')
       | Except.ok boosted =>
         (Except.ok
           (buildResults (st.pinned_documents ++ st.documents)
             (st.pinned_recommendations ++ st.recommendations) boosted n),
          st')) := by
  unfold get_memories
  rw [h]
  simp only [hemp, Bool.false_eq_true, if_false]

end FinancialSituationMemory

theorem indexConsistent_some_length (st : FinancialSituationMemory)
    (idx : List (List String)) (hcons : indexConsistent st)
    (hbm : st.bm25 = some idx) :
    idx.length = (st.pinned_documents ++ st.documents).length := by
  unfold indexConsistent expectedIndex at hcons
  rw [hbm] at hcons
  cases hemp : (st.pinned_documents ++ st.documents).isEmpty with
  | true => simp [hemp] at hcons
  | false =>
    simp only [hemp, Bool.false_eq_true, if_false, Option.some.injEq] at hcons
    rw [hcons, List.length_map]

theorem buildResults_zero_k (allDocs allRecs : List String)
    (scores : List ℚ) : buildResults allDocs allRecs scores 0 = [] := by
  unfold buildResults topIndices pySlice
  simp

namespace FinancialSituationMemory

theorem get_memories_fst_main (B : Backend)
    (cos : List (List ℚ) → List ℚ → List ℚ)
    (scoreAll : List (List String) → List String → List ℚ)
    (st : FinancialSituationMemory) (query : String) (n : Int)
    (rd? : Option SDate) (idx : List (List String)) (h : st.bm25 = some idx)
    (hemp : (st.pinned_documents ++ st.documents).isEmpty = false) :
    (get_memories B cos scoreAll st query n rd?).1 =
      (boostScores rd? st.pinned_documents.length
          (st.pinned_documents ++ st.documents)
          (compute_scores B cos scoreAll st
            (if st.hybrid_enabled then ensure_embeddings B st else st)
            idx query)).map
        (fun boosted =>
          buildResults (st.pinned_documents ++ st.documents)
            (st.pinned_recommendations ++ st.recommendations) boosted n) := by
  rw [get_memories_main B cos scoreAll st query n rd? idx h hemp]
  cases hb : boostScores rd? st.pinned_documents.length
      (st.pinned_documents ++ st.documents)
      (compute_scores B cos scoreAll st
        (if st.hybrid_enabled then ensure_embeddings B st else st)
        idx query) with
  | error e => simp [hb, Except.map]
  | ok boosted => simp [hb, Except.map]

end FinancialSituationMemory

/-! ### Claim theorems -/

open FinancialSituationMemory

/-- C2: for every `add_situations` call, after all new pairs are appended,
if `max_documents > 0` and the regular count exceeds it, exactly the
oldest `count - max_documents` entries are dropped, leaving exactly the
`max_documents` most recent pairs with documents and recommendations still
paired in lockstep; if `max_documents = 0`, no eviction ever occurs. -/
theorem c2_fifo_eviction (st : FinancialSituationMemory)
    (pairs : List (String × String)) :
    ((st.max_documents > 0 ∧
        ((st.documents ++ pairs.map Prod.fst).length : Int) > st.max_documents) →
      (st.add_situations pairs).documents =
        (st.documents ++ pairs.map Prod.fst).drop
          ((st.documents ++ pairs.map Prod.fst).length - st.max_documents.toNat) ∧
      ((st.add_situations pairs).documents.length : Int) = st.max_documents ∧
      (st.add_situations pairs).documents.zip
          (st.add_situations pairs).recommendations =
        ((st.documents ++ pairs.map Prod.fst).zip
            (st.recommendations ++ pairs.map Prod.snd)).drop
          ((st.documents ++ pairs.map Prod.fst).length - st.max_documents.toNat)) ∧
    (st.max_documents = 0 →
      (st.add_situations pairs).documents = st.documents ++ pairs.map Prod.fst ∧
      (st.add_situations pairs).recommendations =
        st.recommendations ++ pairs.map Prod.snd) := by
  unfold add_situations rebuild_index
  constructor
  · intro ⟨h1, h2⟩
    have hev : (decide (st.max_documents > 0) &&
        decide (((st.documents ++ pairs.map Prod.fst).length : Int) >
          st.max_documents)) = true := by
      simp only [Bool.and_eq_true, decide_eq_true_eq]
      exact ⟨h1, h2⟩
    simp only [hev, if_pos]
    refine ⟨trivial, ?_, ?_⟩
    · rw [List.length_drop]
      omega
    · exact (List.drop_zipWith).symm
  · intro h0
    have hev : (decide (st.max_documents > 0) &&
        decide (((st.documents ++ pairs.map Prod.fst).length : Int) >
          st.max_documents)) = false := by
      simp only [h0, Bool.and_eq_false_iff]
      left
      simp
    simp only [hev, Bool.false_eq_true, if_false]
    exact ⟨trivial, trivial⟩

/-- C2 witness: with `max_documents = 2`, inserting the three pairs
`("sit1","rec1")`, `("sit2","rec2")`, `("sit3","rec3")` in order leaves
the regular store holding exactly `[("sit2","rec2"), ("sit3","rec3")]`. -/
theorem c2_fifo_eviction_witness :
    ((add_situations
        (add_situations (add_situations (mk_memory "m" none 2)
          [("sit1", "rec1")]) [("sit2", "rec2")])
        [("sit3", "rec3")]).documents.zip
      (add_situations
        (add_situations (add_situations (mk_memory "m" none 2)
          [("sit1", "rec1")]) [("sit2", "rec2")])
        [("sit3", "rec3")]).recommendations) =
      [("sit2", "rec2"), ("sit3", "rec3")] := by
  have h :=
    (c2_fifo_eviction
      (add_situations (add_situations (mk_memory "m" none 2)
        [("sit1", "rec1")]) [("sit2", "rec2")])
      [("sit3", "rec3")]).1 (by constructor <;> decide)
  exact h.2.2.trans (by decide)

/-- C10: a store built with `config = None` or with a config lacking the
`"hybrid_search"` key has hybrid mode enabled, so the first retrieve call
consults the embedding backend (the dirty cache is recomputed through
`Backend.embedBatch`); only an explicit `hybrid_search` entry disables
this, in which case `_ensure_embeddings` never touches the backend. -/
theorem c10_hybrid_default_on :
    (∀ name md, (mk_memory name none md).hybrid_enabled = true) ∧
    (∀ name md (cfg : List (String × Bool)),
      cfg.lookup "hybrid_search" = none →
      (mk_memory name (some cfg) md).hybrid_enabled = true) ∧
    (∀ (B : Backend) (st : FinancialSituationMemory),
      st.hybrid_enabled = true → st.embeddings_dirty = true →
      (st.pinned_documents ++ st.documents).isEmpty = false →
      (ensure_embeddings B st).doc_embeddings =
        B.embedBatch (st.pinned_documents ++ st.documents)) ∧
    (∀ (B : Backend) (cos : List (List ℚ) → List ℚ → List ℚ)
        (scoreAll : List (List String) → List String → List ℚ)
        (st : FinancialSituationMemory) (query : String) (n : Int)
        (rd? : Option SDate) (idx : List (List String)),
      st.hybrid_enabled = true → st.bm25 = some idx →
      (st.pinned_documents ++ st.documents).isEmpty = false →
      (get_memories B cos scoreAll st query n rd?).2 = ensure_embeddings B st) ∧
    (∀ name md,
      (mk_memory name (some [("hybrid_search", false)]) md).hybrid_enabled
        = false) ∧
    (∀ (B : Backend) (st : FinancialSituationMemory),
      st.hybrid_enabled = false → ensure_embeddings B st = st) := by
  refine ⟨fun name md => rfl, fun name md cfg h => ?_, ?_, ?_, fun name md => rfl, ?_⟩
  · unfold mk_memory
    simp [h]
  · intro B st h1 h2 h3
    unfold ensure_embeddings
    rw [h1, h2]
    simp [h3]
  · intro B cos scoreAll st query n rd? idx h1 h2 h3
    rw [get_memories_main B cos scoreAll st query n rd? idx h2 h3]
    rw [h1, if_pos rfl]
    cases hb : boostScores rd? st.pinned_documents.length
        (st.pinned_documents ++ st.documents)
        (compute_scores B cos scoreAll st (ensure_embeddings B st) idx query) <;>
      simp [hb]
  · intro B st h
    unfold ensure_embeddings
    rw [h]
    simp

/-- C10 witness: the default-config store has hybrid mode on, and its
first query-path cache fill really consults the backend. -/
theorem c10_hybrid_default_on_witness :
    (mk_memory "m" none 50).hybrid_enabled = true ∧
    (ensure_embeddings ⟨fun ts => some (ts.map (fun _ => [1]))⟩
        (add_situations (mk_memory "m" none 50) [("a", "r")])).doc_embeddings =
      some [[1]] := by
  constructor
  · exact c10_hybrid_default_on.1 "m" 50
  · have h := c10_hybrid_default_on.2.2.1
      ⟨fun ts => some (ts.map (fun _ => [1]))⟩
      (add_situations (mk_memory "m" none 50) [("a", "r")])
      (by decide) (by decide) (by decide)
    exact h.trans (by decide)

/-- C9 counterexample: the claim says a negative `max_documents` or
`k ≤ 0` is rejected with a validation error.  In fact `__init__` performs
no validation — a store built with `max_documents = -1` accepts three
inserts without error or eviction — and `get_memories` with `k = 0`
silently returns the empty list instead of failing. -/
theorem c9_counterexample :
    (add_situations (mk_memory "m" none (-1))
        [("s1", "r1"), ("s2", "r2"), ("s3", "r3")]).documents =
      ["s1", "s2", "s3"] ∧
    (get_memories ⟨fun _ => none⟩ (fun _ _ => [])
        (fun idx _ => idx.map (fun _ => 0))
        (add_situations (mk_memory "m" none (-1))
          [("s1", "r1"), ("s2", "r2"), ("s3", "r3")]) "q" 0 none).1 =
      Except.ok [] := by
  constructor <;> decide

/-- C9 amended: neither construction nor retrieval validates its
arguments.  A negative `max_documents` is silently accepted and behaves
as unlimited (the eviction guard `max_documents > 0` never fires);
`k = 0` silently yields an empty result; a negative `k` silently drops
the `|k|` lowest-ranked rows (Python slice semantics).  No validation
error exists anywhere on these paths. -/
theorem c9_no_validation :
    (∀ name cfg md, md < 0 →
      (mk_memory name cfg md).max_documents = md) ∧
    (∀ (st : FinancialSituationMemory) pairs, st.max_documents < 0 →
      (st.add_situations pairs).documents =
          st.documents ++ pairs.map Prod.fst ∧
        (st.add_situations pairs).recommendations =
          st.recommendations ++ pairs.map Prod.snd) ∧
    (∀ (B : Backend) (cos : List (List ℚ) → List ℚ → List ℚ)
        (scoreAll : List (List String) → List String → List ℚ)
        (st : FinancialSituationMemory) (query : String),
      (get_memories B cos scoreAll st query 0 none).1 = Except.ok []) ∧
    (∀ allDocs allRecs (scores : List ℚ) (n : Int), n < 0 →
      (buildResults allDocs allRecs scores n).length =
        scores.length - (-n).toNat) := by
  refine ⟨fun name cfg md h => rfl, ?_, ?_, ?_⟩
  · intro st pairs h
    unfold add_situations rebuild_index
    have hev : (decide (st.max_documents > 0) &&
        decide (((st.documents ++ pairs.map Prod.fst).length : Int) >
          st.max_documents)) = false := by
      simp only [Bool.and_eq_false_iff]
      left
      simp only [decide_eq_false_iff_not]
      omega
    simp only [hev, Bool.false_eq_true, if_false]
    exact ⟨trivial, trivial⟩
  · intro B cos scoreAll st query
    cases hb : st.bm25 with
    | none => rw [get_memories_no_index B cos scoreAll st query 0 none hb]
    | some idx =>
      cases hemp : (st.pinned_documents ++ st.documents).isEmpty with
      | true =>
        rw [get_memories_empty_corpus B cos scoreAll st query 0 none idx hb hemp]
      | false =>
        rw [get_memories_main B cos scoreAll st query 0 none idx hb hemp]
        simp [boostScores_none, buildResults_zero_k]
  · intro allDocs allRecs scores n h
    unfold buildResults
    rw [List.length_map]
    unfold topIndices
    rw [pySlice_length_neg _ _ h, List.length_insertionSort, List.length_range]

/-- C9 witness: a store built with `max_documents = -2` records the value,
never evicts, and a negative `k` slices rows instead of failing. -/
theorem c9_no_validation_witness :
    (mk_memory "w" none (-2)).max_documents = -2 ∧
    (add_situations (mk_memory "w" none (-2)) [("a", "b")]).documents = ["a"] ∧
    (buildResults ["a", "b", "c"] ["x", "y", "z"] [0, 0, 0] (-1)).length = 2 := by
  refine ⟨c9_no_validation.1 "w" none (-2) (by decide), ?_, ?_⟩
  · have h := (c9_no_validation.2.1 (mk_memory "w" none (-2)) [("a", "b")]
      (by decide)).1
    exact h.trans (by decide)
  · have h := c9_no_validation.2.2.2 ["a", "b", "c"] ["x", "y", "z"]
      [0, 0, 0] (-1) (by decide)
    exact h.trans (by decide)

/-- C3 counterexample: the claim says a failed embedding fetch leaves the
cache dirty so the very next retrieve retries.  In fact a failed fetch
(`_ollama_embed` returning `None`) also sets `_embeddings_dirty = False`,
and a subsequent `_ensure_embeddings` — even against a healthy backend —
is a no-op until some mutation re-dirties the cache. -/
theorem c3_counterexample :
    (ensure_embeddings ⟨fun _ => none⟩
        (add_situations (mk_memory "m" none 50)
          [("a", "r")])).embeddings_dirty = false ∧
    ensure_embeddings ⟨fun ts => some (ts.map (fun _ => [1]))⟩
        (ensure_embeddings ⟨fun _ => none⟩
          (add_situations (mk_memory "m" none 50) [("a", "r")])) =
      ensure_embeddings ⟨fun _ => none⟩
        (add_situations (mk_memory "m" none 50) [("a", "r")]) := by
  constructor <;> decide

/-- C3 amended: every mutation (`add_situations`, `clear`) sets the dirty
flag; a successful fetch during a query stores the matrix and clears the
flag; a failed fetch discards the cache but ALSO clears the flag, so the
next retrieve does not retry — the embedding computation is reattempted
only after the next mutation re-dirties the cache. -/
theorem c3_dirty_flag :
    (∀ (st : FinancialSituationMemory) pairs,
      (st.add_situations pairs).embeddings_dirty = true) ∧
    (∀ (st : FinancialSituationMemory) b,
      (FinancialSituationMemory.clear st b).embeddings_dirty = true) ∧
    (∀ (B : Backend) (st : FinancialSituationMemory) M,
      st.embeddings_dirty = true → st.hybrid_enabled = true →
      B.embedBatch (st.pinned_documents ++ st.documents) = some M →
      (st.pinned_documents ++ st.documents).isEmpty = false →
      (ensure_embeddings B st).doc_embeddings = some M ∧
        (ensure_embeddings B st).embeddings_dirty = false) ∧
    (∀ (B : Backend) (st : FinancialSituationMemory),
      st.embeddings_dirty = true → st.hybrid_enabled = true →
      B.embedBatch (st.pinned_documents ++ st.documents) = none →
      (ensure_embeddings B st).doc_embeddings = none ∧
        (ensure_embeddings B st).embeddings_dirty = false ∧
        ∀ B2 : Backend,
          ensure_embeddings B2 (ensure_embeddings B st) =
            ensure_embeddings B st) := by
  refine ⟨fun st pairs => rfl, ?_, ?_, ?_⟩
  · intro st b
    unfold FinancialSituationMemory.clear rebuild_index
    cases b with
    | true => rfl
    | false => dsimp only; split <;> rfl
  · intro B st M h1 h2 h3 h4
    unfold ensure_embeddings
    rw [h1, h2]
    simp [h4, h3]
  · intro B st h1 h2 h3
    unfold ensure_embeddings
    rw [h1, h2]
    cases hemp : (st.pinned_documents ++ st.documents).isEmpty with
    | true => simp [hemp]
    | false =>
      simp only [Bool.not_true, Bool.or_self, Bool.false_eq_true, if_false,
        hemp, h3]
      refine ⟨trivial, trivial, fun B2 => rfl⟩

/-- C3 witness: a successful fetch stores the matrix and clears the
flag. -/
theorem c3_dirty_flag_witness :
    (ensure_embeddings ⟨fun ts => some (ts.map (fun _ => [2]))⟩
        (add_situations (mk_memory "w" none 50)
          [("b", "r")])).doc_embeddings = some [[2]] ∧
    (ensure_embeddings ⟨fun ts => some (ts.map (fun _ => [2]))⟩
        (add_situations (mk_memory "w" none 50)
          [("b", "r")])).embeddings_dirty = false := by
  have h := c3_dirty_flag.2.2.1 ⟨fun ts => some (ts.map (fun _ => [2]))⟩
    (add_situations (mk_memory "w" none 50) [("b", "r")]) [[2]]
    (by decide) (by decide) (by decide) (by decide)
  exact h

/-- C8 counterexample: the claim says the queried index always matches the
current `pinned + regular` sequence, including after a bulk replacement of
the pinned collection.  But the administrative path is a plain attribute
assignment that rebuilds nothing: after `set_pinned`, the BM25 index still
reflects the old corpus, so a retrieve at that moment scores documents
against a stale, misaligned index until the next mutation rebuilds it. -/
theorem c8_counterexample :
    (set_pinned (add_situations (mk_memory "m" none 50) [("alpha", "r")])
        ["beta"] ["rec"]).bm25 = some [["alpha"]] ∧
    expectedIndex
        (set_pinned (add_situations (mk_memory "m" none 50) [("alpha", "r")])
          ["beta"] ["rec"]) = some [["beta"], ["alpha"]] ∧
    ¬ indexConsistent
        (set_pinned (add_situations (mk_memory "m" none 50) [("alpha", "r")])
          ["beta"] ["rec"]) := by
  refine ⟨by decide, by decide, by decide⟩

/-- C8 amended: every constructor/mutator of the public API (`__init__`,
`add_situations`, `clear`) leaves the BM25 index built from exactly the
current `pinned + regular` sequence in that order, so a retrieve issued
after any of them scores against a positionally aligned index (one score
row per document).  A direct bulk replacement of the pinned lists does
not itself rebuild the index; consistency resumes at the next mutation. -/
theorem c8_index_consistency :
    (∀ name cfg md, indexConsistent (mk_memory name cfg md)) ∧
    (∀ (st : FinancialSituationMemory) pairs,
      indexConsistent (st.add_situations pairs)) ∧
    (∀ (st : FinancialSituationMemory) b,
      indexConsistent (FinancialSituationMemory.clear st b)) ∧
    (∀ (st : FinancialSituationMemory) idx, indexConsistent st →
      st.bm25 = some idx →
      idx.length = (st.pinned_documents ++ st.documents).length) := by
  refine ⟨fun name cfg md => rfl, ?_, ?_, ?_⟩
  · intro st pairs
    unfold add_situations rebuild_index indexConsistent expectedIndex
    dsimp only
  · intro st b
    unfold FinancialSituationMemory.clear rebuild_index indexConsistent
      expectedIndex
    cases b with
    | true => rfl
    | false =>
      dsimp only
      cases hemp : st.pinned_documents.isEmpty with
      | true =>
        simp only [Bool.not_false, Bool.true_and, hemp, Bool.false_eq_true,
          if_false]
        have : st.pinned_documents = [] := List.isEmpty_iff.mp hemp
        simp [this]
      | false => simp [hemp]
  · intro st idx hcons hbm
    exact indexConsistent_some_length st idx hcons hbm

/-- C8 witness: after an insertion the index is consistent and aligned. -/
theorem c8_index_consistency_witness :
    indexConsistent (add_situations (mk_memory "w" none 50) [("delta", "r")]) ∧
    ([["delta"]] : List (List String)).length =
      ((add_situations (mk_memory "w" none 50)
          [("delta", "r")]).pinned_documents ++
        (add_situations (mk_memory "w" none 50)
          [("delta", "r")]).documents).length := by
  have h1 := c8_index_consistency.2.1 (mk_memory "w" none 50) [("delta", "r")]
  exact ⟨h1,
    c8_index_consistency.2.2.2
      (add_situations (mk_memory "w" none 50) [("delta", "r")])
      [["delta"]] h1 (by decide)⟩

/-- C4: the claim (and the spec) say a parenthesized `dddd-dd-dd` token
that is not a valid calendar date is treated as "no date" and retrieve
does not raise.  The code disagrees: the regex in `_extract_date` accepts
the token `(2024-13-45)` and hands it to `datetime.strptime`, which
raises an uncaught `ValueError` that propagates out of `get_memories`.
This theorem evaluates the embedded code at that failing input: the
store holds one regular document containing `(2024-13-45)`, and a
retrieve with a reference date returns the error instead of a result
list — a code bug relative to the module's own graceful-degradation
design and the spec's MalformedDateToken taxonomy. -/
theorem c4_invalid_date_raises :
    extractDate "Fed pivot rumor (2024-13-45) spooked markets" =
      Except.error () ∧
    (get_memories ⟨fun _ => none⟩ (fun _ _ => [])
        (fun idx _ => idx.map (fun _ => 0))
        (add_situations (mk_memory "m" (some [("hybrid_search", false)]) 50)
          [("Fed pivot rumor (2024-13-45) spooked markets", "r")])
        "query" 1 (some ⟨2024, 6, 1⟩)).1 = Except.error () := by
  constructor <;> decide

/-- C1 amended: with a `reference_date`, every pinned row's score is
multiplied by exactly 4 (regardless of any date in its text); a regular
row with parseable embedded date gets ×3 when its age is at most 7 days,
×2 when the age is 8..30 days, and ×1 beyond 30 days; a regular row with
no date is unchanged; with no `reference_date` no multiplier is applied.
Consequently a pinned entry outranks any regular entry older than 7 days
that has the same POSITIVE pre-boost score (the claim omits positivity:
with equal non-positive scores the boost can invert the order, see the
counterexample). -/
theorem c1_time_weight_multipliers (rd : SDate) (np : Nat)
    (allDocs : List String) (scores boosted : List ℚ)
    (h : boostScores (some rd) np allDocs scores = Except.ok boosted)
    (i : Nat) (hi : i < scores.length) :
    (i < np → boosted.getD i 0 = scores.getD i 0 * 4) ∧
    (np ≤ i → ∀ d, extractDate (allDocs.getD i "") = Except.ok (some d) →
      (dateSub rd d ≤ 7 → boosted.getD i 0 = scores.getD i 0 * 3) ∧
      (8 ≤ dateSub rd d → dateSub rd d ≤ 30 →
        boosted.getD i 0 = scores.getD i 0 * 2) ∧
      (30 < dateSub rd d → boosted.getD i 0 = scores.getD i 0)) ∧
    (np ≤ i → extractDate (allDocs.getD i "") = Except.ok none →
      boosted.getD i 0 = scores.getD i 0) ∧
    (boostScores none np allDocs scores = Except.ok scores) ∧
    (∀ j d, j < scores.length → i < np → np ≤ j →
      extractDate (allDocs.getD j "") = Except.ok (some d) →
      7 < dateSub rd d → scores.getD j 0 = scores.getD i 0 →
      0 < scores.getD i 0 → boosted.getD j 0 < boosted.getD i 0) := by
  have hcase : ∀ j, j < scores.length →
      boostOne rd np allDocs j (scores.getD j 0) =
        Except.ok (boosted.getD j 0) := by
    intro j hj
    have hx := (boostAux_ok rd np allDocs scores 0 boosted h).2 j hj
    rwa [Nat.zero_add] at hx
  have key4 : i < np → boosted.getD i 0 = scores.getD i 0 * 4 := by
    intro hip
    have hbo := hcase i hi
    unfold boostOne at hbo
    rw [if_pos hip] at hbo
    injection hbo with hb
    exact hb.symm
  have keyReg : ∀ j, j < scores.length → np ≤ j →
      ∀ d, extractDate (allDocs.getD j "") = Except.ok (some d) →
      (dateSub rd d ≤ 7 → boosted.getD j 0 = scores.getD j 0 * 3) ∧
      (¬ dateSub rd d ≤ 7 → dateSub rd d ≤ 30 →
        boosted.getD j 0 = scores.getD j 0 * 2) ∧
      (¬ dateSub rd d ≤ 30 → boosted.getD j 0 = scores.getD j 0) := by
    intro j hj hnp d hd
    have hbo := hcase j hj
    unfold boostOne at hbo
    rw [if_neg (Nat.not_lt.mpr hnp), hd] at hbo
    dsimp only at hbo
    refine ⟨?_, ?_, ?_⟩
    · intro h7
      rw [if_pos h7] at hbo
      injection hbo with hb
      exact hb.symm
    · intro h7 h30
      rw [if_neg h7, if_pos h30] at hbo
      injection hbo with hb
      exact hb.symm
    · intro h30
      have h7 : ¬ dateSub rd d ≤ 7 := by omega
      rw [if_neg h7, if_neg h30] at hbo
      injection hbo with hb
      exact hb.symm
  refine ⟨key4, ?_, ?_, rfl, ?_⟩
  · intro hnp d hd
    obtain ⟨k3, k2, k1⟩ := keyReg i hi hnp d hd
    refine ⟨k3, fun h8 h30 => k2 (by omega) h30, fun h30 => k1 (by omega)⟩
  · intro hnp hd
    have hbo := hcase i hi
    unfold boostOne at hbo
    rw [if_neg (Nat.not_lt.mpr hnp), hd] at hbo
    injection hbo with hb
    exact hb.symm
  · intro j d hj hip hnpj hdj h7 heq hpos
    have h4 := key4 hip
    obtain ⟨_, k2, k1⟩ := keyReg j hj hnpj d hdj
    by_cases h30 : dateSub rd d ≤ 30
    · have hb2 := k2 (by omega) h30
      rw [hb2, h4, heq]
      nlinarith
    · have hb1 := k1 h30
      rw [hb1, h4, heq]
      nlinarith

set_option maxRecDepth 3000 in
unseal Rat.mul Rat.inv Rat.add Rat.sub in
/-- C1 counterexample: the unqualified consequence of the claim — "a
pinned entry outranks any regular entry older than 7 days that has the
same pre-boost score" — fails when that common score is not positive.
BM25-Okapi really produces equal negative scores here: with the pinned and
regular documents textually identical, every query term occurs in every
document, so all IDF values are negative, `rank_bm25`'s epsilon rule
(`eps = 0.25 * average_idf`, applied when `average_idf < 0`) keeps them
negative, and both equally long documents get the same negative score
(about `-0.49` for this corpus; any common negative value exhibits the
inversion, `-1/2` is used below).  The pinned row is quadrupled to `-2`,
the 4-year-old regular row keeps `-1/2`, and the regular entry is ranked
first — the pinned entry does NOT outrank it. -/
theorem c1_counterexample :
    (get_memories ⟨fun _ => none⟩ (fun _ _ => [])
        (fun _ _ => [-(1:ℚ)/2, -(1:ℚ)/2])
        (add_situations
          (set_pinned (mk_memory "m" (some [("hybrid_search", false)]) 50)
            ["x (2020-01-01)"] ["PINNED REC"])
          [("x (2020-01-01)", "REGULAR REC")])
        "x" 2 (some ⟨2024, 1, 1⟩)).1 =
      Except.ok
        [{ matched_situation := "x (2020-01-01)",
           recommendation := "REGULAR REC", similarity_score := -(1:ℚ)/2 },
         { matched_situation := "x (2020-01-01)",
           recommendation := "PINNED REC", similarity_score := -2 }] := by
  decide

set_option maxRecDepth 3000 in
unseal Rat.mul Rat.inv Rat.add Rat.sub in
/-- C1 witness: a pinned row is quadrupled, a 396-day-old regular row is
left unchanged, and with the same positive pre-boost score 2 the pinned
row ends strictly above the regular one. -/
theorem c1_time_weight_multipliers_witness :
    boostScores (some ⟨2024, 2, 1⟩) 1 ["p", "loss on rally (2023-01-01)"]
      [2, 2] = Except.ok [8, 2] ∧
    ([(8:ℚ), 2].getD 0 0 = [(2:ℚ), 2].getD 0 0 * 4) ∧
    ([(8:ℚ), 2].getD 1 0 < [(8:ℚ), 2].getD 0 0) := by
  have hb : boostScores (some ⟨2024, 2, 1⟩) 1
      ["p", "loss on rally (2023-01-01)"] [2, 2] = Except.ok [8, 2] := by
    decide
  have h := c1_time_weight_multipliers ⟨2024, 2, 1⟩ 1
    ["p", "loss on rally (2023-01-01)"] [2, 2] [8, 2] hb 0 (by decide)
  exact ⟨hb, h.1 (by decide),
    h.2.2.2.2 1 ⟨2023, 1, 1⟩ (by decide) (by decide) (by decide) (by decide)
      (by decide) (by decide) (by decide)⟩

set_option maxRecDepth 3000 in
unseal Rat.mul Rat.inv Rat.add Rat.sub in
/-- C6 counterexample: the claim says that when the global maximum final
score is ≤ 0, every returned score is 0.0.  In the code the guard
`max(scores) if max(scores) > 0 else 1` merely replaces the divisor by 1,
so the raw (possibly negative) scores are returned unchanged.  Equal
negative BM25 scores are reachable (three identical one-word documents
and the query being that word: all IDFs are negative and `rank_bm25`'s
epsilon rule keeps them negative), and the call below returns three
scores of `-1/2`, not `0.0`. -/
theorem c6_counterexample :
    (get_memories ⟨fun _ => none⟩ (fun _ _ => [])
        (fun _ _ => [-(1:ℚ)/2, -(1:ℚ)/2, -(1:ℚ)/2])
        (add_situations (mk_memory "m" (some [("hybrid_search", false)]) 50)
          [("b", "r1"), ("b", "r2"), ("b", "r3")])
        "b" 3 none).1 =
      Except.ok
        [{ matched_situation := "b", recommendation := "r1",
           similarity_score := -(1:ℚ)/2 },
         { matched_situation := "b", recommendation := "r2",
           similarity_score := -(1:ℚ)/2 },
         { matched_situation := "b", recommendation := "r3",
           similarity_score := -(1:ℚ)/2 }] ∧
    (-(1:ℚ)/2 < 0) := by
  constructor
  · decide
  · norm_num

/-- C6 amended: every returned similarity_score equals that document's
final score divided by the global maximum final score when that maximum
is positive; when the maximum is ≤ 0 the divisor silently becomes 1, so
the returned scores are the raw final scores (all 0.0 exactly in the
all-zero case, e.g. a query sharing no token with any document with
hybrid disabled — but not when scores are negative).  For a positive
maximum and k ≥ 1 the first returned score is exactly 1.0, and in the
all-zero case up to k entries are still returned, ties broken by
insertion order. -/
theorem c6_score_normalization :
    (∀ (allDocs allRecs : List String) (scores : List ℚ) (n : Int),
      (0 < maxQ scores →
        ∀ r ∈ buildResults allDocs allRecs scores n,
          ∃ i, i < scores.length ∧
            r.similarity_score = scores.getD i 0 / maxQ scores) ∧
      (maxQ scores ≤ 0 →
        ∀ r ∈ buildResults allDocs allRecs scores n,
          ∃ i, i < scores.length ∧ r.similarity_score = scores.getD i 0)) ∧
    (∀ (allDocs allRecs : List String) (scores : List ℚ) (n : Int),
      scores ≠ [] → 1 ≤ n → 0 < maxQ scores →
      ((buildResults allDocs allRecs scores n).map
          (fun r => r.similarity_score)).head? = some 1) ∧
    (∀ (allDocs allRecs : List String) (L : Nat) (n : Int), 0 ≤ n →
      buildResults allDocs allRecs (List.replicate L (0 : ℚ)) n =
        (List.range (min n.toNat L)).map
          (fun i =>
            { matched_situation := allDocs.getD i ""
              recommendation := allRecs.getD i ""
              similarity_score := 0 })) := by
  refine ⟨?_, buildResults_head_eq_one, buildResults_zero_scores⟩
  intro allDocs allRecs scores n
  constructor
  · intro hpos r hr
    obtain ⟨i, hi, heq⟩ := buildResults_score_mem allDocs allRecs scores n r hr
    refine ⟨i, hi, ?_⟩
    rwa [if_pos hpos] at heq
  · intro hle r hr
    obtain ⟨i, hi, heq⟩ := buildResults_score_mem allDocs allRecs scores n r hr
    refine ⟨i, hi, ?_⟩
    rw [if_neg (not_lt.mpr hle), div_one] at heq
    exact heq

/-- C6 witness: a singleton corpus with score 3 returns top score exactly
1, and two zero-scored documents are returned in insertion order with
score 0. -/
theorem c6_score_normalization_witness :
    ((buildResults ["a"] ["r"] [(3 : ℚ)] 1).map
        (fun r => r.similarity_score)).head? = some 1 ∧
    buildResults ["a", "b"] ["r1", "r2"] (List.replicate 2 (0 : ℚ)) 5 =
      [{ matched_situation := "a", recommendation := "r1",
         similarity_score := 0 },
       { matched_situation := "b", recommendation := "r2",
         similarity_score := 0 }] := by
  constructor
  · exact c6_score_normalization.2.1 ["a"] ["r"] [(3 : ℚ)] 1 (by decide)
      (by decide) (by decide)
  · exact (c6_score_normalization.2.2 ["a", "b"] ["r1", "r2"] 2 5
      (by decide)).trans (by decide)

/-- C7 amended: for every store and every retrieve call with k ≥ 0 — under
the library contracts that the BM25 scorer and the embedding/cosine
pipeline return one value per indexed row, and with the index consistent
with the corpus (which every public-API mutation establishes) — an empty
corpus yields the empty sequence (not an error), and any successful
result has length at most min(k, corpus size) with similarity scores in
descending order.  (As stated the claim also covers k < 0, where Python
slice semantics return MORE than min(k, corpus size) entries — see the
counterexample.) -/
theorem c7_result_shape (B : Backend)
    (cos : List (List ℚ) → List ℚ → List ℚ)
    (scoreAll : List (List String) → List String → List ℚ)
    (st : FinancialSituationMemory) (query : String) (n : Int)
    (rd? : Option SDate)
    (hn : 0 ≤ n)
    (hsc : ∀ idx qt, (scoreAll idx qt).length = idx.length)
    (hidx : indexConsistent st)
    (hde : ∀ M,
      (if st.hybrid_enabled then ensure_embeddings B st else st).doc_embeddings =
        some M → M.length = (st.pinned_documents ++ st.documents).length)
    (hcos : ∀ de qv, (cos de qv).length = de.length) :
    ((st.pinned_documents ++ st.documents) = [] →
      (get_memories B cos scoreAll st query n rd?).1 = Except.ok []) ∧
    (∀ res, (get_memories B cos scoreAll st query n rd?).1 = Except.ok res →
      res.length ≤ min n.toNat (st.pinned_documents ++ st.documents).length ∧
      (res.map (fun r => r.similarity_score)).Sorted (fun a b => b ≤ a)) := by
  constructor
  · intro hempty
    have hbm : st.bm25 = none := by
      unfold indexConsistent expectedIndex at hidx
      rw [hempty] at hidx
      simpa using hidx
    rw [get_memories_no_index B cos scoreAll st query n rd? hbm]
  · intro res hres
    cases hbm : st.bm25 with
    | none =>
      rw [get_memories_no_index B cos scoreAll st query n rd? hbm] at hres
      simp only [Except.ok.injEq] at hres
      subst hres
      exact ⟨Nat.zero_le _, List.sorted_nil⟩
    | some idx =>
      cases hemp : (st.pinned_documents ++ st.documents).isEmpty with
      | true =>
        rw [get_memories_empty_corpus B cos scoreAll st query n rd? idx hbm
          hemp] at hres
        simp only [Except.ok.injEq] at hres
        subst hres
        exact ⟨Nat.zero_le _, List.sorted_nil⟩
      | false =>
        rw [get_memories_main B cos scoreAll st query n rd? idx hbm hemp]
          at hres
        have hidxlen := indexConsistent_some_length st idx hidx hbm
        cases hb2 : boostScores rd? st.pinned_documents.length
            (st.pinned_documents ++ st.documents)
            (compute_scores B cos scoreAll st
              (if st.hybrid_enabled then ensure_embeddings B st else st)
              idx query) with
        | error e => simp [hb2] at hres
        | ok boosted =>
          simp only [hb2, Except.ok.injEq] at hres
          subst hres
          constructor
          · have hblen : boosted.length =
                (st.pinned_documents ++ st.documents).length := by
              rw [boostScores_ok_length _ _ _ _ _ hb2]
              rw [compute_scores_length B cos scoreAll st _ idx query
                (hsc idx (tokenize query))
                (fun M hM => (hde M hM).trans hidxlen.symm) hcos]
              exact hidxlen
            rw [buildResults_length _ _ _ _ hn, hblen]
          · exact buildResults_sorted _ _ _ _

set_option maxRecDepth 3000 in
unseal Rat.mul Rat.inv Rat.add Rat.sub in
/-- C7 counterexample: the claim bounds EVERY retrieve call's result
length by min(k, corpus size).  For k = -1 on a three-document corpus,
Python's slice `[:-1]` keeps the two highest-ranked rows, so the result
has length 2 while min(k, corpus size) = -1 — the bound fails (the code
silently accepts negative k, cf. C9). -/
theorem c7_counterexample :
    (get_memories ⟨fun _ => none⟩ (fun _ _ => [])
        (fun idx _ => idx.map (fun _ => 0))
        (add_situations (mk_memory "m" (some [("hybrid_search", false)]) 50)
          [("a", "r1"), ("b", "r2"), ("c", "r3")])
        "zzz" (-1) none).1 =
      Except.ok
        [{ matched_situation := "a", recommendation := "r1",
           similarity_score := 0 },
         { matched_situation := "b", recommendation := "r2",
           similarity_score := 0 }] ∧
    ¬ ((([{ matched_situation := "a", recommendation := "r1",
            similarity_score := (0 : ℚ) },
          { matched_situation := "b", recommendation := "r2",
            similarity_score := (0 : ℚ) }] : List MatchRes).length : Int) ≤
        min (-1 : Int) 3) := by
  constructor
  · decide
  · decide

set_option maxRecDepth 3000 in
unseal Rat.mul Rat.inv Rat.add Rat.sub in
/-- C7 witness: a successful one-document retrieve with k = 2 returns one
row, within the min(k, corpus size) bound, sorted. -/
theorem c7_result_shape_witness :
    (get_memories ⟨fun _ => none⟩ (fun de _ => de.map (fun _ => 0))
        (fun idx _ => idx.map (fun _ => 0))
        (add_situations (mk_memory "w" (some [("hybrid_search", false)]) 50)
          [("a", "r")]) "zzz" 2 none).1 =
      Except.ok [{ matched_situation := "a", recommendation := "r",
                   similarity_score := 0 }] ∧
    ([{ matched_situation := "a", recommendation := "r",
        similarity_score := (0 : ℚ) }] : List MatchRes).length ≤
      min (Int.toNat 2)
        ((add_situations (mk_memory "w" (some [("hybrid_search", false)]) 50)
            [("a", "r")]).pinned_documents ++
          (add_situations (mk_memory "w" (some [("hybrid_search", false)]) 50)
            [("a", "r")]).documents).length ∧
    (([{ matched_situation := "a", recommendation := "r",
         similarity_score := (0 : ℚ) }] : List MatchRes).map
        (fun r => r.similarity_score)).Sorted (fun a b => b ≤ a) := by
  have heq : (get_memories ⟨fun _ => none⟩ (fun de _ => de.map (fun _ => 0))
      (fun idx _ => idx.map (fun _ => 0))
      (add_situations (mk_memory "w" (some [("hybrid_search", false)]) 50)
        [("a", "r")]) "zzz" 2 none).1 =
      Except.ok [{ matched_situation := "a", recommendation := "r",
                   similarity_score := 0 }] := by
    decide
  have hdeq : ((if (add_situations
        (mk_memory "w" (some [("hybrid_search", false)]) 50)
        [("a", "r")]).hybrid_enabled then
      ensure_embeddings ⟨fun _ => none⟩
        (add_situations (mk_memory "w" (some [("hybrid_search", false)]) 50)
          [("a", "r")])
    else
      add_situations (mk_memory "w" (some [("hybrid_search", false)]) 50)
        [("a", "r")]).doc_embeddings : Option (List (List ℚ))) = none := by
    decide
  have h := (c7_result_shape ⟨fun _ => none⟩ (fun de _ => de.map (fun _ => 0))
    (fun idx _ => idx.map (fun _ => 0))
    (add_situations (mk_memory "w" (some [("hybrid_search", false)]) 50)
      [("a", "r")]) "zzz" 2 none (by decide)
    (fun idx qt => List.length_map idx _) (by decide)
    (fun M hM => Option.noConfusion (hdeq.symm.trans hM))
    (fun de qv => List.length_map de _)).2
    [{ matched_situation := "a", recommendation := "r",
       similarity_score := 0 }] heq
  exact ⟨heq, h.1, h.2⟩

/-- C5: with hybrid mode on and both the cached corpus matrix and a fresh
query embedding obtained, each document's pre-boost score is
`α·(lexical/max(lexical, zero-guarded)) + (1-α)·minmax(cosine)` with the
fixed constant `α = 0.6 > 1/2`; when either embedding is unavailable the
call degrades to exactly the lexical-only pipeline (same results as a
store with hybrid disabled) and no error is surfaced — a retrieve without
a reference date always returns `Except.ok`. -/
theorem c5_hybrid_fusion :
    (∀ (lex vec : List ℚ) (i : Nat), i < lex.length → i < vec.length →
      (fuse lex vec).getD i 0 =
        hybridAlpha *
            (lex.getD i 0 / (if maxQ lex = 0 then 1 else maxQ lex)) +
          (1 - hybridAlpha) *
            ((vec.getD i 0 - minQ vec) /
              (if maxQ vec - minQ vec = 0 then 1
               else maxQ vec - minQ vec))) ∧
    (1 / 2 < hybridAlpha) ∧
    (∀ (B : Backend) (cos : List (List ℚ) → List ℚ → List ℚ)
        (scoreAll : List (List String) → List String → List ℚ)
        (st : FinancialSituationMemory) (query : String) (n : Int)
        (rd? : Option SDate),
      ((ensure_embeddings B st).doc_embeddings = none ∨
        B.embedBatch [query] = none) →
      (get_memories B cos scoreAll st query n rd?).1 =
        (get_memories B cos scoreAll
          { st with hybrid_enabled := false } query n rd?).1) ∧
    (∀ (B : Backend) (cos : List (List ℚ) → List ℚ → List ℚ)
        (scoreAll : List (List String) → List String → List ℚ)
        (st : FinancialSituationMemory) (query : String) (n : Int),
      ∃ r, (get_memories B cos scoreAll st query n none).1 = Except.ok r) ∧
    (∀ (B : Backend) (cos : List (List ℚ) → List ℚ → List ℚ)
        (scoreAll : List (List String) → List String → List ℚ)
        (st : FinancialSituationMemory) (query : String) (n : Int)
        (rd? : Option SDate) (idx : List (List String)) dEmb qemb,
      st.hybrid_enabled = true → st.bm25 = some idx →
      (st.pinned_documents ++ st.documents).isEmpty = false →
      (ensure_embeddings B st).doc_embeddings = some dEmb →
      B.embedBatch [query] = some qemb →
      (get_memories B cos scoreAll st query n rd?).1 =
        (boostScores rd? st.pinned_documents.length
            (st.pinned_documents ++ st.documents)
            (fuse (scoreAll idx (tokenize query))
              (cos dEmb (qemb.headD [])))).map
          (fun boosted =>
            buildResults (st.pinned_documents ++ st.documents)
              (st.pinned_recommendations ++ st.recommendations)
              boosted n)) := by
  refine ⟨?_, by norm_num [hybridAlpha], ?_, ?_, ?_⟩
  · intro lex vec i hl hv
    have hlen : i < (fuse lex vec).length := by
      rw [fuse_length]
      exact Nat.lt_min.mpr ⟨hl, hv⟩
    rw [List.getD_eq_getElem _ _ hlen,
      List.getD_eq_getElem lex _ hl, List.getD_eq_getElem vec _ hv]
    unfold fuse
    simp [List.getElem_zipWith]
  · intro B cos scoreAll st query n rd? hfail
    cases hbm : st.bm25 with
    | none =>
      have h2 := get_memories_no_index B cos scoreAll
        { st with hybrid_enabled := false, bm25 := none } query n rd? rfl
      rw [h2, get_memories_no_index B cos scoreAll st query n rd? hbm]
    | some idx =>
      cases hemp : (st.pinned_documents ++ st.documents).isEmpty with
      | true =>
        have h2 := get_memories_empty_corpus B cos scoreAll
          { st with hybrid_enabled := false, bm25 := some idx } query n rd?
          idx rfl
          (show (({ st with hybrid_enabled := false, bm25 := some idx } :
              FinancialSituationMemory).pinned_documents ++
            ({ st with hybrid_enabled := false, bm25 := some idx } :
              FinancialSituationMemory).documents).isEmpty = true from hemp)
        rw [h2,
          get_memories_empty_corpus B cos scoreAll st query n rd? idx hbm hemp]
      | false =>
        have h2 := get_memories_fst_main B cos scoreAll
          { st with hybrid_enabled := false, bm25 := some idx } query n rd?
          idx rfl
          (show (({ st with hybrid_enabled := false, bm25 := some idx } :
              FinancialSituationMemory).pinned_documents ++
            ({ st with hybrid_enabled := false, bm25 := some idx } :
              FinancialSituationMemory).documents).isEmpty = false from hemp)
        rw [h2,
          get_memories_fst_main B cos scoreAll st query n rd? idx hbm hemp]
        have hcs : compute_scores B cos scoreAll st
            (if st.hybrid_enabled then ensure_embeddings B st else st)
            idx query =
            scoreAll idx (tokenize query) := by
          unfold compute_scores
          cases hhyb : st.hybrid_enabled with
          | false => simp [hhyb]
          | true =>
            simp only [hhyb, if_pos]
            rcases hfail with hf | hf
            · rw [hf]
            · cases hdE : (ensure_embeddings B st).doc_embeddings with
              | none => rfl
              | some dEmb => rw [hf]
        have hcs2 : compute_scores B cos scoreAll
            { st with hybrid_enabled := false, bm25 := some idx }
            (if ({ st with hybrid_enabled := false, bm25 := some idx } :
                FinancialSituationMemory).hybrid_enabled then
              ensure_embeddings B
                { st with hybrid_enabled := false, bm25 := some idx }
            else { st with hybrid_enabled := false, bm25 := some idx })
            idx query = scoreAll idx (tokenize query) := rfl
        rw [hcs, hcs2]
  · intro B cos scoreAll st query n
    cases hbm : st.bm25 with
    | none =>
      exact ⟨[], by
        rw [get_memories_no_index B cos scoreAll st query n none hbm]⟩
    | some idx =>
      cases hemp : (st.pinned_documents ++ st.documents).isEmpty with
      | true =>
        exact ⟨[], by
          rw [get_memories_empty_corpus B cos scoreAll st query n none idx
            hbm hemp]⟩
      | false =>
        rw [get_memories_fst_main B cos scoreAll st query n none idx hbm hemp,
          boostScores_none]
        exact ⟨_, rfl⟩
  · intro B cos scoreAll st query n rd? idx dEmb qemb hhyb hbm hemp hde hq
    rw [get_memories_fst_main B cos scoreAll st query n rd? idx hbm hemp]
    have hcs : compute_scores B cos scoreAll st
        (if st.hybrid_enabled then ensure_embeddings B st else st)
        idx query =
        fuse (scoreAll idx (tokenize query)) (cos dEmb (qemb.headD [])) := by
      unfold compute_scores
      rw [hhyb]
      simp only [if_pos]
      rw [hde, hq]
    rw [hcs]

/-- C5 witness: the fused score of row 0 for lexical scores `[1, 2]` and
cosine scores `[0, 1]` follows the α-weighted formula, α exceeds 1/2, and
a store whose backend is down returns exactly the lexical-only results. -/
theorem c5_hybrid_fusion_witness :
    ((fuse [(1 : ℚ), 2] [(0 : ℚ), 1]).getD 0 0 =
      hybridAlpha *
          ([(1 : ℚ), 2].getD 0 0 /
            (if maxQ [(1 : ℚ), 2] = 0 then 1 else maxQ [(1 : ℚ), 2])) +
        (1 - hybridAlpha) *
          (([(0 : ℚ), 1].getD 0 0 - minQ [(0 : ℚ), 1]) /
            (if maxQ [(0 : ℚ), 1] - minQ [(0 : ℚ), 1] = 0 then 1
             else maxQ [(0 : ℚ), 1] - minQ [(0 : ℚ), 1]))) ∧
    (1 / 2 < hybridAlpha) ∧
    (get_memories ⟨fun _ => none⟩ (fun de _ => de.map (fun _ => 0))
        (fun idx _ => idx.map (fun _ => 0))
        (add_situations (mk_memory "w" none 50) [("a", "r")]) "q" 1 none).1 =
      (get_memories ⟨fun _ => none⟩ (fun de _ => de.map (fun _ => 0))
        (fun idx _ => idx.map (fun _ => 0))
        { add_situations (mk_memory "w" none 50) [("a", "r")] with
            hybrid_enabled := false } "q" 1 none).1 := by
  refine ⟨c5_hybrid_fusion.1 [(1 : ℚ), 2] [(0 : ℚ), 1] 0 (by decide)
      (by decide),
    c5_hybrid_fusion.2.1, ?_⟩
  exact c5_hybrid_fusion.2.2.1 ⟨fun _ => none⟩ (fun de _ => de.map (fun _ => 0))
    (fun idx _ => idx.map (fun _ => 0))
    (add_situations (mk_memory "w" none 50) [("a", "r")]) "q" 1 none
    (Or.inl (by decide))
